import Mathlib

/-!
Verification development for the compressed unbalanced Merkle tree
calculator (UnbalancedMerkleTreeCalculator and its helpers).

Buffers are modelled as lists of bytes (List Nat), Buffer.equals as list
equality, and the injected pairing hash as an arbitrary function on
buffers.  Stateful JavaScript code is embedded as explicit state passing;
fallible operations (explicit throws as well as TypeError crashes coming
from non-null assertions and undefined property reads) return Except.
-/

deriving instance DecidableEq for Except

/-- A buffer of bytes, modelling the Node Buffer values used for leaves,
hashes and the compression sentinel. -/
abbrev Buf := List Nat

/-- The 32 byte zero buffer, modelling Buffer.alloc(32). -/
def zeros32 : Buf := List.replicate 32 0

/-- A pairing hash, modelling the injected hasher (left, right) to hash. -/
abbrev Hasher := Buf → Buf → Buf

/-- A concrete executable pairing hash used for witnesses and
counterexamples: concatenation of the two operands.  It is injective on
pairs of fixed-length operands, like a collision-free hash. -/
def bufAppend : Hasher := fun a b => a ++ b

/-- Modelled from the spec: TreeNodeLocation of the tree store module
(unbalanced_tree_store.js), which is not part of the provided sources.  A
tree position is a (level, index) coordinate.  Orientation: the spec build
algorithm (step 4: the surviving single position at level 0 is the root)
and the in-source callers fix the root row at level 0, with the level
number increasing toward the leaf row: buildTree sets the root of an all
compressed tree at (level 0, index 0) and getRoot reads it back, and
getSiblingPathByLeafIndex walks parents while level is positive. -/
structure TreeNodeLocation where
  level : Nat
  index : Nat
deriving DecidableEq, Repr

/-- A tree node: a buffer value, plus the original leaf index when the
node is a leaf (hash-produced nodes carry none). -/
structure TreeNode where
  value : Buf
  leafIndex : Option Nat
deriving DecidableEq, Repr

/-- Modelled from the spec: the sparse node store of
unbalanced_tree_store.js (not in the provided sources), as a mapping from
location to an optional node; absence is a real outcome. -/
def UnbalancedTreeStore := TreeNodeLocation → Option TreeNode

/-- Modelled from the spec: the empty store (no position populated). -/
def emptyStore : UnbalancedTreeStore := fun _ => none

/-- Modelled from the spec: setNode writes a node at a position. -/
def setNode (s : UnbalancedTreeStore) (loc : TreeNodeLocation) (n : TreeNode) :
    UnbalancedTreeStore :=
  fun l => if l = loc then some n else s l

/-- Modelled from the spec: getNode reads the node at a position,
returning absence when the position was never written. -/
def getNode (s : UnbalancedTreeStore) (loc : TreeNodeLocation) : Option TreeNode :=
  s loc

/-- Modelled from the spec: the parent of a position halves the index and
moves one level toward the root row (level 0).  It is only ever applied at
a positive level (both call sites stop at level 0); natural subtraction is
harmless there. -/
def getParentLocation (loc : TreeNodeLocation) : TreeNodeLocation :=
  ⟨loc.level - 1, loc.index / 2⟩

/-- Modelled from the spec: the sibling position flips the lowest index
bit at the same level. -/
def getSiblingLocation (loc : TreeNodeLocation) : TreeNodeLocation :=
  ⟨loc.level, if loc.index % 2 = 0 then loc.index + 1 else loc.index - 1⟩

/-- Modelled from the spec: getSibling reads the node at the sibling
position. -/
def getSibling (s : UnbalancedTreeStore) (loc : TreeNodeLocation) : Option TreeNode :=
  getNode s (getSiblingLocation loc)

/-- Modelled from the spec: the two child positions of a position, one
level toward the leaf row. -/
def getChildLocations (loc : TreeNodeLocation) :
    TreeNodeLocation × TreeNodeLocation :=
  (⟨loc.level + 1, 2 * loc.index⟩, ⟨loc.level + 1, 2 * loc.index + 1⟩)

/-- Ceiling of the base two logarithm with explicit fuel, so that it
reduces by kernel computation.  Mirrors Math.ceil(Math.log2(n)) on the
exact naturals that arise (leaf counts). -/
def ceilLog2Fuel : Nat → Nat → Nat
  | 0, _ => 0
  | fuel + 1, n => if n ≤ 1 then 0 else ceilLog2Fuel fuel ((n + 1) / 2) + 1

/-- Ceiling of the base two logarithm: the tree height for a given leaf
count (0 for a single leaf). -/
def ceilLog2 (n : Nat) : Nat := ceilLog2Fuel n n

/-- The distinct failure modes of the calculator.  The first four model
the explicit Error throws of the source; typeError models a JavaScript
TypeError raised by reading a property of undefined (indexing outside an
array, or a non-null assertion on an absent store node). -/
inductive CalcError where
  | zeroLeaves : CalcError
  | leafValueNotFound : Buf → CalcError
  | leafIndexOutOfBounds : Int → Nat → CalcError
  | leafCompressed : Nat → CalcError
  | typeError : CalcError
deriving DecidableEq, Repr

/-- A record of one invocation of the pairing hash during construction:
the location of the node used as the left operand, the left operand value
and the right operand value (ghost instrumentation for the hash ordering
contract). -/
structure HashCall where
  location : TreeNodeLocation
  left : Buf
  right : Buf
deriving DecidableEq, Repr

/-- The calculator state: the node store, the current resting location of
every leaf, and the ghost log of pairing hash invocations. -/
structure CalcState where
  store : UnbalancedTreeStore
  leafLocations : List TreeNodeLocation
  hashCalls : List HashCall

/-- Embedding of UnbalancedMerkleTreeCalculator.shiftNodeUp: copy the node
at fromLoc to toLoc, update the recorded leaf location when the node is a
leaf, and report whether it was a leaf.  Absence at fromLoc models the
TypeError of the non-null assertion. -/
def shiftNodeUp (st : CalcState) (fromLoc toLoc : TreeNodeLocation) :
    Except CalcError (CalcState × Bool) :=
  match getNode st.store fromLoc with
  | none => .error .typeError
  | some node =>
    let store := setNode st.store toLoc node
    match node.leafIndex with
    | some li => .ok (⟨store, st.leafLocations.set li toLoc, st.hashCalls⟩, true)
    | none => .ok (⟨store, st.leafLocations, st.hashCalls⟩, false)

/-- Embedding of the arrow function computeNewLocation inside
UnbalancedMerkleTreeCalculator.shiftChildrenUp, with groupSize = 2 ^ level
of the parent: the relocated index of a child index at the parent level. -/
def computeNewLocation (level i : Nat) : TreeNodeLocation :=
  ⟨level, i / (2 ^ level * 2) * 2 ^ level + i % 2 ^ level⟩

/-- Embedding of UnbalancedMerkleTreeCalculator.shiftChildrenUp: relocate
the two children of parent to the parent level, then recurse into each
child that is not a leaf.  The source recursion is bounded by the tree
height because the store never holds nodes below the leaf level; the fuel
makes that bound explicit (fuel exhaustion is unreachable from buildTree,
which passes height plus two). -/
def shiftChildrenUp : Nat → CalcState → TreeNodeLocation → Except CalcError CalcState
  | 0, _, _ => .error .typeError
  | fuel + 1, st, parent =>
    let c := getChildLocations parent
    match shiftNodeUp st c.1 (computeNewLocation parent.level c.1.index) with
    | .error e => .error e
    | .ok (st1, isLeftLeaf) =>
      match shiftNodeUp st1 c.2 (computeNewLocation parent.level c.2.index) with
      | .error e => .error e
      | .ok (st2, isRightLeaf) =>
        match (if isLeftLeaf then .ok st2 else shiftChildrenUp fuel st2 c.1 :
            Except CalcError CalcState) with
        | .error e => .error e
        | .ok st3 => if isRightLeaf then .ok st3 else shiftChildrenUp fuel st3 c.2

/-- Embedding of one iteration of the inner loop of
UnbalancedMerkleTreeCalculator.buildTree, processing one location of
toProcess at the current level i and extending the accumulator of
locations for the next level. -/
def processOne (S : Buf) (h : Hasher) (fuel i : Nat) (st : CalcState)
    (next : List TreeNodeLocation) (location : TreeNodeLocation) :
    Except CalcError (CalcState × List TreeNodeLocation) :=
  if location.level ≠ i then .ok (st, next ++ [location])
  else
    let parentLocation := getParentLocation location
    match getNode st.store parentLocation with
    | some _ => .ok (st, next)
    | none =>
      match getSibling st.store location with
      | none =>
        match shiftNodeUp st location parentLocation with
        | .error e => .error e
        | .ok (st1, isLeaf) =>
          match (if isLeaf then .ok st1 else shiftChildrenUp fuel st1 location :
              Except CalcError CalcState) with
          | .error e => .error e
          | .ok st2 => .ok (st2, next ++ [parentLocation])
      | some sibling =>
        if sibling.value = S then
          match shiftNodeUp st location parentLocation with
          | .error e => .error e
          | .ok (st1, isLeaf) =>
            match (if isLeaf then .ok st1 else shiftChildrenUp fuel st1 location :
                Except CalcError CalcState) with
            | .error e => .error e
            | .ok st2 => .ok (st2, next ++ [parentLocation])
        else
          match getNode st.store location with
          | none => .error .typeError
          | some node =>
            let parentValue := h node.value sibling.value
            let st1 : CalcState :=
              ⟨setNode st.store parentLocation ⟨parentValue, none⟩,
                st.leafLocations,
                st.hashCalls ++ [⟨location, node.value, sibling.value⟩]⟩
            .ok (st1, next ++ [parentLocation])

/-- Embedding of the inner loop of buildTree over the toProcess list at
level i, producing the updated state and the list for the next level. -/
def processLevel (S : Buf) (h : Hasher) (fuel i : Nat) :
    CalcState → List TreeNodeLocation → List TreeNodeLocation →
    Except CalcError (CalcState × List TreeNodeLocation)
  | st, next, [] => .ok (st, next)
  | st, next, loc :: rest =>
    match processOne S h fuel i st next loc with
    | .error e => .error e
    | .ok (st1, next1) => processLevel S h fuel i st1 next1 rest

/-- Embedding of the outer loop of buildTree: process levels downward from
the leaf level to level 1. -/
def buildLevels (S : Buf) (h : Hasher) (fuel : Nat) :
    Nat → CalcState → List TreeNodeLocation → Except CalcError CalcState
  | 0, st, _ => .ok st
  | i + 1, st, toProcess =>
    match processLevel S h fuel (i + 1) st [] toProcess with
    | .error e => .error e
    | .ok (st1, next) => buildLevels S h fuel i st1 next

/-- Embedding of the setLeaf loop: write each leaf value, tagged with its
original index, at the leaf level d in input order. -/
def initStore (d : Nat) : Nat → List Buf → UnbalancedTreeStore → UnbalancedTreeStore
  | _, [], s => s
  | i, v :: rest, s => initStore d (i + 1) rest (setNode s ⟨d, i⟩ ⟨v, some i⟩)

/-- The initial leaf locations: leaf i rests at (d, i). -/
def initLeafLocations (d n : Nat) : List TreeNodeLocation :=
  (List.range n).map fun i => ⟨d, i⟩

/-- Embedding of the initial toProcess computation: the locations of the
leaves whose value is not the compression sentinel, in input order. -/
def initialToProcess (d : Nat) (leaves : List Buf) (S : Buf) :
    List TreeNodeLocation :=
  (leaves.enum.filter fun p => !(decide (p.2 = S))).map fun p => ⟨d, p.1⟩

/-- Embedding of the UnbalancedMerkleTreeCalculator constructor plus
buildTree: reject an empty leaf list, write the leaves, and either set the
zero root directly (all leaves compressed) or run the level loop from the
leaf level.  The shiftChildrenUp fuel is the tree height plus two, an
upper bound on the source recursion depth. -/
def buildCalculator (leaves : List Buf) (S : Buf) (h : Hasher) :
    Except CalcError CalcState :=
  match leaves with
  | [] => .error .zeroLeaves
  | _ :: _ =>
    let d := ceilLog2 leaves.length
    let st0 : CalcState :=
      ⟨initStore d 0 leaves emptyStore, initLeafLocations d leaves.length, []⟩
    match initialToProcess d leaves S with
    | [] =>
      .ok ⟨setNode st0.store ⟨0, 0⟩ ⟨zeros32, none⟩, st0.leafLocations, st0.hashCalls⟩
    | first :: rest =>
      buildLevels S h (d + 2) first.level st0 (first :: rest)

/-- Embedding of UnbalancedMerkleTreeCalculator.getRoot: read the node at
the root position (level 0, index 0); absence models the TypeError of the
non-null assertion. -/
def getRoot (st : CalcState) : Except CalcError Buf :=
  match getNode st.store ⟨0, 0⟩ with
  | none => .error .typeError
  | some n => .ok n.value

/-- Embedding of the sibling path while loop: from a location with the
given level and index, collect the sibling value at every level above 0,
lowest level first.  An absent sibling models the TypeError of the
non-null assertion. -/
def collectPath (s : UnbalancedTreeStore) : Nat → Nat → Except CalcError (List Buf)
  | 0, _ => .ok []
  | level + 1, index =>
    match getSibling s ⟨level + 1, index⟩ with
    | none => .error .typeError
    | some sib =>
      match collectPath s level (index / 2) with
      | .error e => .error e
      | .ok rest => .ok (sib.value :: rest)

/-- Embedding of UnbalancedMerkleTreeCalculator.getSiblingPathByLeafIndex.
The index is an Int because the source accepts any JavaScript number: only
the upper bound is checked, and a negative index reaches the undefined
array read (a TypeError), not the bounds error. -/
def getSiblingPathByLeafIndex (leaves : List Buf) (S : Buf) (st : CalcState)
    (leafIndex : Int) : Except CalcError (List Buf) :=
  if leafIndex ≥ (leaves.length : Int) then
    .error (.leafIndexOutOfBounds leafIndex leaves.length)
  else
    match (if leafIndex < 0 then none else leaves.get? leafIndex.toNat) with
    | none => .error .typeError
    | some leaf =>
      if leaf = S then .error (.leafCompressed leafIndex.toNat)
      else
        match st.leafLocations.get? leafIndex.toNat with
        | none => .error .typeError
        | some loc => collectPath st.store loc.level loc.index

/-- Embedding of Array.prototype.findIndex with a starting counter: the
index of the first element satisfying the predicate, if any. -/
def findIndexAux (p : Buf → Bool) : List Buf → Nat → Option Nat
  | [], _ => none
  | x :: rest, i => if p x then some i else findIndexAux p rest (i + 1)

/-- Embedding of UnbalancedMerkleTreeCalculator.getSiblingPath: find the
first leaf equal to the value, fail with the not found error if none, and
delegate to the by-index query. -/
def getSiblingPath (leaves : List Buf) (S : Buf) (st : CalcState) (value : Buf) :
    Except CalcError (List Buf) :=
  match findIndexAux (fun l => decide (l = value)) leaves 0 with
  | none => .error (.leafValueNotFound value)
  | some k => getSiblingPathByLeafIndex leaves S st (Int.ofNat k)

/-- Root of a freshly constructed calculator (the in-source wrapper
computeCompressedUnbalancedMerkleTreeRoot, with the hasher explicit). -/
def calcRoot (leaves : List Buf) (S : Buf) (h : Hasher) : Except CalcError Buf :=
  match buildCalculator leaves S h with
  | .error e => .error e
  | .ok st => getRoot st

/-- By-index sibling path of a freshly constructed calculator. -/
def calcPathByIndex (leaves : List Buf) (S : Buf) (h : Hasher) (i : Int) :
    Except CalcError (List Buf) :=
  match buildCalculator leaves S h with
  | .error e => .error e
  | .ok st => getSiblingPathByLeafIndex leaves S st i

/-- By-value sibling path of a freshly constructed calculator. -/
def calcPathByValue (leaves : List Buf) (S : Buf) (h : Hasher) (v : Buf) :
    Except CalcError (List Buf) :=
  match buildCalculator leaves S h with
  | .error e => .error e
  | .ok st => getSiblingPath leaves S st v

/-- Final resting location of a leaf of a freshly constructed calculator
(the in-source public getLeafLocation). -/
def calcLeafLocation (leaves : List Buf) (S : Buf) (h : Hasher) (i : Nat) :
    Except CalcError TreeNodeLocation :=
  match buildCalculator leaves S h with
  | .error e => .error e
  | .ok st =>
    match st.leafLocations.get? i with
    | none => .error .typeError
    | some loc => .ok loc

/-- Ghost log of pairing hash invocations of a construction. -/
def calcHashCalls (leaves : List Buf) (S : Buf) (h : Hasher) :
    Except CalcError (List HashCall) :=
  match buildCalculator leaves S h with
  | .error e => .error e
  | .ok st => .ok st.hashCalls

/-- The verification fold stated by the spec: rehash a starting value up
through a sibling path, using at each level the even (lower) indexed node
of the pair as the left hash operand, halving the index per level. -/
def recomputeRoot (h : Hasher) : Nat → Buf → List Buf → Buf
  | _, v, [] => v
  | index, v, s :: rest =>
    recomputeRoot h (index / 2) (if index % 2 = 0 then h v s else h s v) rest

/-- Six distinct uncompressed leaves: a minimal leaf list on which the
sibling paths are corrupted by the child relocation of buildTree. -/
def leaves6 : List Buf := [[0], [1], [2], [3], [4], [5]]

/-- Eight leaves with the sentinel 9 at indices 0, 1, 4 and 5: a leaf list
on which buildTree performs a pairing hash whose left operand is the node
at an odd index. -/
def leaves8 : List Buf := [[9], [9], [2], [3], [9], [9], [6], [7]]

/-- C1: for the six uncompressed leaves, rehashing leaf 0 up through the
sibling path returned for it, with the even indexed node of each pair as
the left operand, does not reproduce the returned root: the relocation in
shiftChildrenUp moved leaves 4 and 5 onto positions (2, 0) and (2, 1),
corrupting the sibling chain, so the program contradicts its stated
sibling path contract. -/
theorem merklePathVerificationBrokenAtSixLeaves :
    calcRoot leaves6 [9] bufAppend = .ok [0, 1, 2, 3, 4, 5] ∧
    calcLeafLocation leaves6 [9] bufAppend 0 = .ok ⟨3, 0⟩ ∧
    calcPathByIndex leaves6 [9] bufAppend 0 = .ok [[1], [5], [4, 5]] ∧
    recomputeRoot bufAppend 0 [0] [[1], [5], [4, 5]] = [0, 1, 5, 4, 5] ∧
    ([0, 1, 5, 4, 5] : Buf) ≠ [0, 1, 2, 3, 4, 5] := by
  refine ⟨by decide, by decide, by decide, by decide, by decide⟩

/-- C3: during construction from leaves8, the third pairing hash performed
by buildTree takes the node at the odd index 3 of level 2 as the left
operand and its even indexed sibling as the right operand (left operand
value [3], right operand value [2]), violating the even-left ordering
contract: the relocation in shiftChildrenUp had moved leaves 2 and 3 onto
positions (2, 2) and (2, 3) instead of (2, 0) and (2, 1). -/
theorem hashOrderingViolatedUnderCompression :
    calcHashCalls leaves8 [9] bufAppend =
      .ok [⟨⟨3, 2⟩, [2], [3]⟩, ⟨⟨3, 6⟩, [6], [7]⟩,
        ⟨⟨2, 3⟩, [3], [2]⟩, ⟨⟨1, 0⟩, [2, 3], [3, 2]⟩] ∧
    (⟨2, 3⟩ : TreeNodeLocation).index % 2 = 1 ∧
    leaves8.get? 2 = some [2] ∧ leaves8.get? 3 = some [3] := by
  refine ⟨by decide, by decide, by decide, by decide⟩

/-- C2 counterexample: the parent of position (1, 5) is (0, 2), not the
(2, 2) required by the leaf-row-at-level-0 orientation of the claim. -/
theorem parentLocationSpecOrientationFalse :
    getParentLocation ⟨1, 5⟩ = ⟨0, 2⟩ ∧
    (⟨0, 2⟩ : TreeNodeLocation) ≠ ⟨2, 2⟩ := by
  exact ⟨rfl, by decide⟩

/-- C2 amended: for every position with positive level, getParentLocation
returns (level - 1, floor(index / 2)): the root row is level 0 and the
level number increases toward the leaf row. -/
theorem parentLocationDecrementsLevel (level index : Nat) (h : 0 < level) :
    getParentLocation ⟨level, index⟩ = ⟨level - 1, index / 2⟩ :=
  rfl

/-- C2 amended, witness at (1, 5). -/
theorem parentLocationDecrementsLevel_witness :
    getParentLocation ⟨1, 5⟩ = ⟨0, 2⟩ :=
  parentLocationDecrementsLevel 1 5 (by decide)

/-- C9: the relocated index computed by computeNewLocation for a child
index i under a parent at level L equals, in exact natural number
arithmetic, (i div 2 ^ (L + 1)) * 2 ^ L + (i mod 2 ^ L), and the map
preserves relative order inside a group of 2 ^ L consecutive indices. -/
theorem computeNewLocationExactFormula :
    (∀ L i : Nat, computeNewLocation L i =
      ⟨L, i / 2 ^ (L + 1) * 2 ^ L + i % 2 ^ L⟩) ∧
    (∀ L i j : Nat, i < j → i / 2 ^ L = j / 2 ^ L →
      (computeNewLocation L i).index < (computeNewLocation L j).index) := by
  constructor
  · intro L i
    unfold computeNewLocation
    rw [pow_succ]
  · intro L i j hij hgroup
    have hdd : i / (2 ^ L * 2) = j / (2 ^ L * 2) := by
      rw [← Nat.div_div_eq_div_mul, ← Nat.div_div_eq_div_mul, hgroup]
    have h1 := Nat.div_add_mod i (2 ^ L)
    have h2 := Nat.div_add_mod j (2 ^ L)
    have hmod : i % 2 ^ L < j % 2 ^ L := by
      rw [hgroup] at h1
      omega
    show i / (2 ^ L * 2) * 2 ^ L + i % 2 ^ L <
      j / (2 ^ L * 2) * 2 ^ L + j % 2 ^ L
    rw [hdd]
    exact Nat.add_lt_add_left hmod _

/-- C9 witness: the formula at L = 1, i = 2, and order preservation for
the sibling pair 2, 3 at level 1. -/
theorem computeNewLocationExactFormula_witness :
    computeNewLocation 1 2 = ⟨1, 2 / 2 ^ 2 * 2 ^ 1 + 2 % 2 ^ 1⟩ ∧
    (computeNewLocation 1 2).index < (computeNewLocation 1 3).index :=
  ⟨computeNewLocationExactFormula.1 1 2,
    computeNewLocationExactFormula.2 1 2 3 (by decide) (by decide)⟩

/-- C5 counterexample: querying the sibling path at index -1 of a one leaf
tree fails with the TypeError coming from the undefined array read, which
is a different error from the out of bounds error: only the upper bound is
checked by the source. -/
theorem negativeIndexNotBoundsError :
    calcPathByIndex [[1]] [] bufAppend (-1) = .error .typeError ∧
    CalcError.typeError ≠ CalcError.leafIndexOutOfBounds (-1) 1 := by
  exact ⟨by decide, by decide⟩

/-- C5 amended: an index at or above the leaf count fails with the
distinct out of bounds error, while a negative index instead fails with
the TypeError of the undefined array read. -/
theorem indexBoundsErrorBehavior (leaves : List Buf) (S : Buf) (st : CalcState)
    (idx : Int) :
    ((leaves.length : Int) ≤ idx →
      getSiblingPathByLeafIndex leaves S st idx =
        .error (.leafIndexOutOfBounds idx leaves.length)) ∧
    (idx < 0 →
      getSiblingPathByLeafIndex leaves S st idx = .error .typeError) := by
  constructor
  · intro hge
    unfold getSiblingPathByLeafIndex
    rw [if_pos hge]
  · intro hneg
    have hnge : ¬ ((leaves.length : Int) ≤ idx) := by
      have : (0 : Int) ≤ (leaves.length : Int) := Int.ofNat_nonneg _
      omega
    unfold getSiblingPathByLeafIndex
    rw [if_neg hnge, if_pos hneg]

/-- C5 amended, witness: index 5 of a one leaf tree is rejected as out of
bounds, and index -1 fails with the TypeError. -/
theorem indexBoundsErrorBehavior_witness :
    getSiblingPathByLeafIndex [[1]] [] ⟨emptyStore, [], []⟩ 5 =
      .error (.leafIndexOutOfBounds 5 1) ∧
    getSiblingPathByLeafIndex [[1]] [] ⟨emptyStore, [], []⟩ (-1) =
      .error .typeError :=
  ⟨(indexBoundsErrorBehavior [[1]] [] ⟨emptyStore, [], []⟩ 5).1 (by decide),
    (indexBoundsErrorBehavior [[1]] [] ⟨emptyStore, [], []⟩ (-1)).2 (by decide)⟩

/-- Helper: an element paired by enumFrom is an element of the list. -/
theorem sndMemOfMemEnumFrom {α : Type} (l : List α) :
    ∀ (n : Nat) (p : Nat × α), p ∈ l.enumFrom n → p.2 ∈ l := by
  induction l with
  | nil => intro n p hp; simp [List.enumFrom] at hp
  | cons x rest ih =>
    intro n p hp
    rw [List.enumFrom] at hp
    rcases List.mem_cons.mp hp with h | h
    · rw [h]; exact List.mem_cons_self x rest
    · exact List.mem_cons_of_mem x (ih (n + 1) p h)

/-- Helper: when every leaf equals the sentinel the initial toProcess list
is empty. -/
theorem initialToProcessAllSentinel (d : Nat) (leaves : List Buf) (S : Buf)
    (hall : ∀ l ∈ leaves, l = S) :
    initialToProcess d leaves S = [] := by
  unfold initialToProcess
  rw [List.filter_eq_nil_iff.mpr, List.map_nil]
  intro p hp
  have hmem : p.2 ∈ leaves := sndMemOfMemEnumFrom leaves 0 p hp
  simp [hall p.2 hmem]

/-- Helper: initStore leaves a location untouched when the location is not
one of the written leaf positions. -/
theorem initStoreLookupOther (d : Nat) :
    ∀ (vs : List Buf) (i : Nat) (s : UnbalancedTreeStore) (loc : TreeNodeLocation),
      (∀ k, k < vs.length → loc ≠ ⟨d, i + k⟩) →
      initStore d i vs s loc = s loc := by
  intro vs
  induction vs with
  | nil => intro i s loc hk; rfl
  | cons v rest ih =>
    intro i s loc hk
    show initStore d (i + 1) rest (setNode s ⟨d, i⟩ ⟨v, some i⟩) loc = s loc
    rw [ih (i + 1) _ loc ?later]
    case later =>
      intro k hkl hc
      refine hk (k + 1) (by simpa using Nat.succ_lt_succ hkl) ?_
      rw [hc]
      congr 1
      omega
    show (if loc = ⟨d, i⟩ then some ⟨v, some i⟩ else s loc) = s loc
    rw [if_neg ?_]
    have h0 := hk 0 (by simp)
    simpa using h0

/-- Helper: a leaf count of at least two forces a positive tree height. -/
theorem ceilLog2Pos (n : Nat) (hn : 2 ≤ n) : 0 < ceilLog2 n := by
  obtain ⟨f, rfl⟩ : ∃ f, n = f + 2 := ⟨n - 2, by omega⟩
  show 0 < ceilLog2Fuel (f + 2) (f + 2)
  rw [ceilLog2Fuel]
  rw [if_neg (by omega)]
  omega

/-- C4: for every nonempty leaf list in which every leaf equals the
sentinel, and for every pairing hash, construction succeeds, the root is
the 32 byte zero buffer, it is the node stored at the top level position
(level 0, index 0), no other node occupies the top level, and no pairing
hash was invoked. -/
theorem allCompressedRootIsZero (leaves : List Buf) (S : Buf) (h : Hasher)
    (hne : leaves ≠ []) (hall : ∀ l ∈ leaves, l = S) :
    ∃ st, buildCalculator leaves S h = .ok st ∧
      getRoot st = .ok zeros32 ∧
      getNode st.store ⟨0, 0⟩ = some ⟨zeros32, none⟩ ∧
      (∀ j, j ≠ 0 → getNode st.store ⟨0, j⟩ = none) ∧
      st.hashCalls = [] := by
  obtain ⟨x, rest, rfl⟩ := List.exists_cons_of_ne_nil hne
  have htp := initialToProcessAllSentinel (ceilLog2 (x :: rest).length)
    (x :: rest) S hall
  refine ⟨⟨setNode (initStore (ceilLog2 (x :: rest).length) 0 (x :: rest) emptyStore)
      ⟨0, 0⟩ ⟨zeros32, none⟩,
    initLeafLocations (ceilLog2 (x :: rest).length) (x :: rest).length, []⟩,
    ?_, ?_, ?_, ?_, rfl⟩
  · show (match initialToProcess (ceilLog2 (x :: rest).length) (x :: rest) S with
      | [] => Except.ok (⟨_, _, _⟩ : CalcState)
      | first :: rest1 => buildLevels S h _ first.level _ (first :: rest1)) = _
    rw [htp]
  · unfold getRoot getNode setNode
    simp
  · unfold getNode setNode
    simp
  · intro j hj
    show setNode _ ⟨0, 0⟩ ⟨zeros32, none⟩ ⟨0, j⟩ = none
    unfold setNode
    rw [if_neg (by simp [hj])]
    rcases Nat.lt_or_ge (x :: rest).length 2 with hlen | hlen
    · have hrest : rest = [] := by
        simp at hlen
        exact List.length_eq_zero.mp (by omega)
      subst hrest
      rw [initStoreLookupOther _ _ _ _ _ ?_]
      · rfl
      · intro k hk hc
        rw [TreeNodeLocation.mk.injEq] at hc
        have hk0 : k = 0 := by simpa using hk
        omega
    · have hd := ceilLog2Pos (x :: rest).length hlen
      rw [initStoreLookupOther _ _ _ _ _ ?_]
      · rfl
      · intro k hk hc
        rw [TreeNodeLocation.mk.injEq] at hc
        omega

/-- C4 witness: two leaves both equal to the sentinel value [7]. -/
theorem allCompressedRootIsZero_witness :
    ∃ st, buildCalculator [[7], [7]] [7] bufAppend = .ok st ∧
      getRoot st = .ok zeros32 ∧
      getNode st.store ⟨0, 0⟩ = some ⟨zeros32, none⟩ ∧
      (∀ j, j ≠ 0 → getNode st.store ⟨0, j⟩ = none) ∧
      st.hashCalls = [] :=
  allCompressedRootIsZero [[7], [7]] [7] bufAppend (by decide) (by decide)

/-- C6: for the two leaf list with the sentinel first and a non sentinel
leaf second, the non sentinel leaf is promoted to the root position and
returned as the root, and no pairing hash is invoked, for every pairing
hash and every sentinel. -/
theorem compressedSiblingPromotedToRoot (S B : Buf) (h : Hasher) (hBS : B ≠ S) :
    calcRoot [S, B] S h = .ok B ∧ calcHashCalls [S, B] S h = .ok [] := by
  constructor
  · simp [calcRoot, buildCalculator, initialToProcess, List.enum, List.enumFrom,
      List.filter_cons, hBS, ceilLog2, ceilLog2Fuel, buildLevels, processLevel,
      processOne, getParentLocation, getSiblingLocation, getSibling, getNode,
      setNode, initStore, emptyStore, shiftNodeUp, getRoot, initLeafLocations]
  · simp [calcHashCalls, buildCalculator, initialToProcess, List.enum,
      List.enumFrom, List.filter_cons, hBS, ceilLog2, ceilLog2Fuel, buildLevels,
      processLevel, processOne, getParentLocation, getSiblingLocation,
      getSibling, getNode, setNode, initStore, emptyStore, shiftNodeUp,
      initLeafLocations]

/-- C6 witness at sentinel [9], leaf [5] and the concatenation hasher. -/
theorem compressedSiblingPromotedToRoot_witness :
    calcRoot [[9], [5]] [9] bufAppend = .ok [5] ∧
    calcHashCalls [[9], [5]] [9] bufAppend = .ok [] :=
  compressedSiblingPromotedToRoot [9] [5] bufAppend (by decide)

/-- C7: for a single leaf list whose leaf is not the sentinel, the root is
the leaf itself and the sibling path of leaf 0 is empty, for every pairing
hash and every sentinel. -/
theorem singleLeafRootAndEmptyPath (A S : Buf) (h : Hasher) (hAS : A ≠ S) :
    calcRoot [A] S h = .ok A ∧ calcPathByIndex [A] S h 0 = .ok [] := by
  constructor
  · simp [calcRoot, buildCalculator, initialToProcess, List.enum, List.enumFrom,
      List.filter_cons, hAS, ceilLog2, ceilLog2Fuel, buildLevels, processLevel,
      processOne, getParentLocation, getSiblingLocation, getSibling, getNode,
      setNode, initStore, emptyStore, shiftNodeUp, getRoot, initLeafLocations]
  · simp [calcPathByIndex, buildCalculator, initialToProcess, List.enum,
      List.enumFrom, List.filter_cons, hAS, ceilLog2, ceilLog2Fuel, buildLevels,
      processLevel, processOne, getParentLocation, getSiblingLocation,
      getSibling, getNode, setNode, initStore, emptyStore, shiftNodeUp,
      initLeafLocations, getSiblingPathByLeafIndex, collectPath]

/-- C7 witness at leaf [5] and sentinel [9]. -/
theorem singleLeafRootAndEmptyPath_witness :
    calcRoot [[5]] [9] bufAppend = .ok [5] ∧
    calcPathByIndex [[5]] [9] bufAppend 0 = .ok [] :=
  singleLeafRootAndEmptyPath [5] [9] bufAppend (by decide)

/-- Helper: findIndexAux returns the offset plus the first index whose
element satisfies the predicate. -/
theorem findIndexAuxFirst (p : Buf → Bool) :
    ∀ (l : List Buf) (k : Nat) (a : Buf), l.get? k = some a → p a = true →
      (∀ j b, j < k → l.get? j = some b → p b = false) →
      ∀ i, findIndexAux p l i = some (i + k) := by
  intro l
  induction l with
  | nil => intro k a hk; simp at hk
  | cons x rest ih =>
    intro k a hk hpa hmin i
    cases k with
    | zero =>
      simp at hk
      show (if p x then some i else findIndexAux p rest (i + 1)) = some (i + 0)
      rw [hk, if_pos hpa]
      simp
    | succ k =>
      have hpx : p x = false := hmin 0 x (Nat.succ_pos k) (by simp)
      show (if p x then some i else findIndexAux p rest (i + 1)) = some (i + (k + 1))
      rw [hpx]
      simp only [Bool.false_eq_true, if_false]
      rw [ih k a (by simpa using hk) hpa
        (fun j b hj hb => hmin (j + 1) b (Nat.succ_lt_succ hj) (by simpa using hb))
        (i + 1)]
      congr 1
      omega

/-- Helper: findIndexAux finds nothing when no element satisfies the
predicate. -/
theorem findIndexAuxNone (p : Buf → Bool) :
    ∀ (l : List Buf), (∀ a ∈ l, p a = false) → ∀ i, findIndexAux p l i = none := by
  intro l
  induction l with
  | nil => intro hall i; rfl
  | cons x rest ih =>
    intro hall i
    show (if p x then some i else findIndexAux p rest (i + 1)) = none
    rw [hall x (List.mem_cons_self x rest)]
    simp only [Bool.false_eq_true, if_false]
    exact ih (fun a ha => hall a (List.mem_cons_of_mem x ha)) (i + 1)

/-- C8: when index k holds the first leaf equal to the queried value, the
by-value query produces exactly the outcome of the by-index query at k;
and when no leaf equals the value, the by-value query fails with the not
found lookup error. -/
theorem pathByValueAgreesWithPathByIndex :
    (∀ (leaves : List Buf) (S : Buf) (st : CalcState) (v : Buf) (k : Nat),
      leaves.get? k = some v →
      (∀ j b, j < k → leaves.get? j = some b → b ≠ v) →
      getSiblingPath leaves S st v =
        getSiblingPathByLeafIndex leaves S st (Int.ofNat k)) ∧
    (∀ (leaves : List Buf) (S : Buf) (st : CalcState) (v : Buf),
      (∀ l ∈ leaves, l ≠ v) →
      getSiblingPath leaves S st v = .error (.leafValueNotFound v)) := by
  constructor
  · intro leaves S st v k hk hmin
    unfold getSiblingPath
    rw [findIndexAuxFirst (fun l => decide (l = v)) leaves k v hk (by simp)
      (fun j b hj hb => decide_eq_false (hmin j b hj hb)) 0]
    simp
  · intro leaves S st v hnone
    unfold getSiblingPath
    rw [findIndexAuxNone (fun l => decide (l = v)) leaves
      (fun a ha => decide_eq_false (hnone a ha)) 0]

/-- C8 witness: on the two leaf tree [[1], [2]] the by-value query for [2]
equals the by-index query at 1, and a query for the absent value [4] fails
with the not found error. -/
theorem pathByValueAgreesWithPathByIndex_witness :
    getSiblingPath [[1], [2]] [9] ⟨emptyStore, [], []⟩ [2] =
      getSiblingPathByLeafIndex [[1], [2]] [9] ⟨emptyStore, [], []⟩ (Int.ofNat 1) ∧
    getSiblingPath [[1], [2]] [9] ⟨emptyStore, [], []⟩ [4] =
      .error (.leafValueNotFound [4]) := by
  constructor
  · refine pathByValueAgreesWithPathByIndex.1 [[1], [2]] [9] ⟨emptyStore, [], []⟩
      [2] 1 (by decide) ?_
    intro j b hj hb
    have hj0 : j = 0 := by omega
    subst hj0
    simp at hb
    subst hb
    decide
  · refine pathByValueAgreesWithPathByIndex.2 [[1], [2]] [9] ⟨emptyStore, [], []⟩
      [4] ?_
    intro l hl
    rcases List.mem_cons.mp hl with h1 | h1
    · subst h1; decide
    · rcases List.mem_cons.mp h1 with h2 | h2
      · subst h2; decide
      · simp at h2

/-- Helper: a member of a list has a first occurrence index. -/
theorem existsFirstOccurrence (v : Buf) :
    ∀ (l : List Buf), v ∈ l →
      ∃ k, l.get? k = some v ∧ ∀ j b, j < k → l.get? j = some b → b ≠ v := by
  intro l
  induction l with
  | nil => intro hm; simp at hm
  | cons x rest ih =>
    intro hm
    by_cases hx : x = v
    · refine ⟨0, by simp [hx], ?_⟩
      intro j b hj
      omega
    · have hv : v ∈ rest := by
        rcases List.mem_cons.mp hm with h1 | h1
        · exact absurd h1.symm hx
        · exact h1
      obtain ⟨k, hk, hmin⟩ := ih hv
      refine ⟨k + 1, by simpa using hk, ?_⟩
      intro j b hj hb
      cases j with
      | zero =>
        simp at hb
        rw [← hb]
        exact hx
      | succ j => exact hmin j b (by omega) (by simpa using hb)

/-- C10: when some leaf equals the sentinel, querying the sibling path by
value with the sentinel itself finds the first sentinel leaf and fails
with the compressed leaf error at its index, not with the not found
lookup error. -/
theorem sentinelQueryFailsCompressed (leaves : List Buf) (S : Buf)
    (st : CalcState) (hmem : S ∈ leaves) :
    ∃ k, leaves.get? k = some S ∧
      (∀ j b, j < k → leaves.get? j = some b → b ≠ S) ∧
      getSiblingPath leaves S st S = .error (.leafCompressed k) ∧
      ∀ v, getSiblingPath leaves S st S ≠ .error (.leafValueNotFound v) := by
  obtain ⟨k, hk, hmin⟩ := existsFirstOccurrence S leaves hmem
  have hlt : k < leaves.length := by
    by_contra hge
    rw [List.get?_eq_none.mpr (by omega)] at hk
    cases hk
  have hpath : getSiblingPath leaves S st S =
      getSiblingPathByLeafIndex leaves S st (Int.ofNat k) := by
    unfold getSiblingPath
    rw [findIndexAuxFirst (fun l => decide (l = S)) leaves k S hk (by simp)
      (fun j b hj hb => decide_eq_false (hmin j b hj hb)) 0]
    simp
  have hres : getSiblingPathByLeafIndex leaves S st (Int.ofNat k) =
      .error (.leafCompressed k) := by
    have h1 : ¬ (Int.ofNat k ≥ (leaves.length : Int)) := by
      simp only [Int.ofNat_eq_natCast]
      omega
    have h2 : ¬ (Int.ofNat k < 0) := by
      simp only [Int.ofNat_eq_natCast]
      omega
    unfold getSiblingPathByLeafIndex
    rw [if_neg h1, if_neg h2]
    rw [show (Int.ofNat k).toNat = k from rfl]
    rw [hk]
    simp
  refine ⟨k, hk, hmin, ?_, ?_⟩
  · rw [hpath, hres]
  · intro v
    rw [hpath, hres]
    intro hc
    cases hc

/-- C10 witness on the tree [[9], [5]] with sentinel [9]. -/
theorem sentinelQueryFailsCompressed_witness :
    ∃ k, ([[9], [5]] : List Buf).get? k = some [9] ∧
      (∀ j b, j < k → ([[9], [5]] : List Buf).get? j = some b → b ≠ [9]) ∧
      getSiblingPath [[9], [5]] [9] ⟨emptyStore, [], []⟩ [9] =
        .error (.leafCompressed k) ∧
      ∀ v, getSiblingPath [[9], [5]] [9] ⟨emptyStore, [], []⟩ [9] ≠
        .error (.leafValueNotFound v) :=
  sentinelQueryFailsCompressed [[9], [5]] [9] ⟨emptyStore, [], []⟩ (by decide)
